import Mathlib

/-!
Shallow embedding of the `deploy` command-line client (Go package `cmd`).

The deployment-state tracker `DeploymentData` (src/unnamed/part_000) stores
its order and lease identifiers in Go slices.  Because one claim is about
the aliasing behaviour of the slice header returned by `Leases`, slices are
modelled faithfully: a slice is a descriptor (array id, length, capacity)
into a heap of arrays, and `append` either writes in place (when spare
capacity exists) or allocates a fresh backing array, exactly as Go does.

The configuration / transaction code (src/cmd/config.go) delegates to
external libraries (Cosmos SDK, Tendermint RPC, the filesystem).  Those
externals are modelled as environment records of `Except`-returning
functions, and the observable side effects (network calls, printed
warnings, process exit) as explicit event traces.
-/

namespace Deploy

/-- Byte strings are modelled as lists of naturals. -/
abbrev Bytes := List Nat

/-- Model of `mtypes.OrderID`: owner plus deployment/group/order sequence
numbers.  Its `Equals` method compares all fields by value, which is
definitional equality of this structure. -/
structure OrderID where
  owner : String
  dseq : Nat
  gseq : Nat
  oseq : Nat
  deriving DecidableEq, Inhabited

/-- Model of `mtypes.LeaseID`: an order id plus the provider address.
`Equals` is field-by-field value equality. -/
structure LeaseID where
  owner : String
  dseq : Nat
  gseq : Nat
  oseq : Nat
  provider : String
  deriving DecidableEq, Inhabited

/-- Model of `dtypes.GroupSpec`; its contents are opaque to this repository,
so a single abstract field suffices. -/
structure GroupSpec where
  raw : Nat
  deriving DecidableEq, Inhabited

/-- Model of `dtypes.DeploymentID`: owner address and deployment sequence. -/
structure DeploymentID where
  owner : String
  dseq : Nat
  deriving DecidableEq, Inhabited

/-- Opaque model of a parsed `sdl.SDL` object. -/
structure SDL where
  raw : Nat
  deriving DecidableEq, Inhabited

/-- Opaque model of a `manifest.Manifest`. -/
structure Manifest where
  raw : Nat
  deriving DecidableEq, Inhabited

/-- Model of a Go error value. -/
structure Err where
  msg : String
  deriving DecidableEq, Inhabited

/-- A Go slice header: backing-array id, length, capacity. -/
structure GoSlice where
  aid : Nat
  len : Nat
  cap : Nat
  deriving DecidableEq, Inhabited

/-- A heap of backing arrays, one per allocated id; `next` is the next
fresh id (every id already handed out is smaller than `next`). -/
structure GoHeap (α : Type) where
  arrays : Nat → List α
  next : Nat

/-- The observable contents of a slice: the first `len` cells of its
backing array. -/
def GoHeap.view (h : GoHeap α) (s : GoSlice) : List α :=
  (h.arrays s.aid).take s.len

/-- Write one cell of one backing array in place. -/
def GoHeap.write (h : GoHeap α) (a i : Nat) (x : α) : GoHeap α :=
  { h with arrays := fun b => if b = a then (h.arrays a).set i x else h.arrays b }

/-- Allocate a fresh backing array holding `l`; returns the new heap and
the fresh id. -/
def GoHeap.alloc (h : GoHeap α) (l : List α) : GoHeap α × Nat :=
  ({ arrays := fun b => if b = h.next then l else h.arrays b, next := h.next + 1 }, h.next)

/-- Go's `append(s, x)`: if spare capacity exists the element is written in
place into the shared backing array; otherwise a fresh, larger array is
allocated, the live elements are copied and the tail of the new array
holds zero values. -/
def goAppend [Inhabited α] (h : GoHeap α) (s : GoSlice) (x : α) : GoHeap α × GoSlice :=
  if s.len < s.cap then
    (h.write s.aid s.len x, ⟨s.aid, s.len + 1, s.cap⟩)
  else
    let newcap := max (2 * s.cap) (s.len + 1)
    let arr := (h.arrays s.aid).take s.len ++ x :: List.replicate (newcap - (s.len + 1)) default
    let p := h.alloc arr
    (p.1, ⟨p.2, s.len + 1, newcap⟩)

/-- A nil Go slice (`var out []T`): zero length and capacity, so the first
append allocates; its backing array is never read or written. -/
def goNil : GoSlice := ⟨0, 0, 0⟩

/-- A heap holding one empty array (id 0), as after `make([]T, 0)`. -/
def GoHeap.empty (α : Type) : GoHeap α := ⟨fun _ => [], 1⟩

/-- Model of `DeploymentData`: the various IDs involved in a deployment.
`Groups` is a `[]*dtypes.GroupSpec`, i.e. a list of pointers resolved
through `groupStore`; `OrderID` and `LeaseID` are slice headers into the
corresponding heaps.  The `sync.RWMutex` serialises the mutators, so each
operation below is one atomic step. -/
structure DeploymentData where
  SDLFile : Bytes
  sdl : SDL
  manifest : Manifest
  groupStore : Nat → GroupSpec
  Groups : List Nat
  DeploymentID : DeploymentID
  heapO : GoHeap OrderID
  OrderID : GoSlice
  heapL : GoHeap LeaseID
  LeaseID : GoSlice
  Version : Bytes

/-- Model of `dtypes.MsgCreateDeployment` as populated by `MsgCreate`. -/
structure MsgCreateDeployment where
  ID : DeploymentID
  Groups : List GroupSpec
  Version : Bytes
  deriving DecidableEq

/-- `MsgCreate` constructor for `MsgCreateDeployment`: starts from an empty
group list and appends the dereferenced stored groups in order. -/
def DeploymentData.MsgCreate (dd : DeploymentData) : MsgCreateDeployment :=
  let msg : MsgCreateDeployment :=
    { ID := dd.DeploymentID, Groups := [], Version := dd.Version }
  { msg with Groups := dd.Groups.foldl (fun acc p => acc ++ [dd.groupStore p]) msg.Groups }

/-- `ExpectedLeases` returns true if all the leases are in state:
`len(dd.Groups) == len(dd.LeaseID)`. -/
def DeploymentData.ExpectedLeases (dd : DeploymentData) : Bool :=
  dd.Groups.length == dd.LeaseID.len

/-- `ExpectedOrders` returns true if all the orders are in state:
`len(dd.Groups) == len(dd.OrderID)`. -/
def DeploymentData.ExpectedOrders (dd : DeploymentData) : Bool :=
  dd.Groups.length == dd.OrderID.len

/-- `AddOrder` appends the order to `dd.OrderID` (no membership check,
as the source's TODO notes). -/
def DeploymentData.AddOrder (dd : DeploymentData) (order : Deploy.OrderID) : DeploymentData :=
  let p := goAppend dd.heapO dd.OrderID order
  { dd with heapO := p.1, OrderID := p.2 }

/-- `RemoveOrder` rebuilds `dd.OrderID` from a nil slice, appending every
tracked order that is not `Equals` to the argument. -/
def DeploymentData.RemoveOrder (dd : DeploymentData) (order : Deploy.OrderID) : DeploymentData :=
  let p := (dd.heapO.view dd.OrderID).foldl
    (fun q o => if order = o then q else goAppend q.1 q.2 o) (dd.heapO, goNil)
  { dd with heapO := p.1, OrderID := p.2 }

/-- `Leases` returns `out := dd.LeaseID; return out`: a copy of the slice
header, not of the backing array. -/
def DeploymentData.Leases (dd : DeploymentData) : GoSlice :=
  dd.LeaseID

/-- `AddLease` appends the lease to `dd.LeaseID` (no membership check). -/
def DeploymentData.AddLease (dd : DeploymentData) (lease : Deploy.LeaseID) : DeploymentData :=
  let p := goAppend dd.heapL dd.LeaseID lease
  { dd with heapL := p.1, LeaseID := p.2 }

/-- `RemoveLease` rebuilds `dd.LeaseID` from a nil slice, appending every
tracked lease that is not `Equals` to the argument. -/
def DeploymentData.RemoveLease (dd : DeploymentData) (order : Deploy.LeaseID) : DeploymentData :=
  let p := (dd.heapL.view dd.LeaseID).foldl
    (fun q o => if order = o then q else goAppend q.1 q.2 o) (dd.heapL, goNil)
  { dd with heapL := p.1, LeaseID := p.2 }

/-- The observable order collection of a tracker. -/
def DeploymentData.orderView (dd : DeploymentData) : List Deploy.OrderID :=
  dd.heapO.view dd.OrderID

/-- The observable lease collection of a tracker. -/
def DeploymentData.leaseView (dd : DeploymentData) : List Deploy.LeaseID :=
  dd.heapL.view dd.LeaseID

/-- Model of the YAML-backed `Config` struct (the user-facing fields). -/
structure Config where
  chainID : String
  rpcAddr : String
  keyfile : String
  keypass : String
  deriving DecidableEq, Inhabited

/-- Observable side effects of the configuration path: printed warnings,
keybase creation, process exit. -/
inductive CfgEvent where
  | printWarn (path : String)
  | keybaseCreated
  | exitCode (n : Nat)
  deriving DecidableEq

/-- Environment of externals used by the configuration path: whether
`rpchttp.New` rejects the address, which paths exist on disk (`os.Stat`),
and whether `ImportPrivKey` rejects the key material. -/
structure CfgEnv where
  rpcNewErr : String → Option Err
  fileExists : String → Bool
  importKeyErr : Option Err

/-- The key path `path.Join(homePath, c.Keyfile)`. -/
def keyPathOf (homePath : String) (c : Config) : String :=
  homePath ++ "/" ++ c.keyfile

/-- `CreateKeybase`: opens the keyfile, reads it and imports the private
key into a fresh in-memory keybase; any step's error is returned. -/
def CreateKeybase (env : CfgEnv) (homePath : String) (c : Config) :
    Option Err × List CfgEvent :=
  if env.fileExists (keyPathOf homePath c) = false then
    (some ⟨"open " ++ keyPathOf homePath c ++ ": no such file or directory"⟩, [])
  else
    match env.importKeyErr with
    | some e => (some e, [])
    | none => (none, [.keybaseCreated])

/-- `validateConfig` validates all the props in the config file: an
unusable RPC address is an error; a missing keyfile prints a warning and
returns nil (skipping keybase creation); otherwise the keybase is created
and its error, if any, returned. -/
def validateConfig (env : CfgEnv) (homePath : String) (c : Config) :
    Option Err × List CfgEvent :=
  match env.rpcNewErr c.rpcAddr with
  | some e => (some e, [])
  | none =>
    if env.fileExists (keyPathOf homePath c) = false then
      (none, [.printWarn (keyPathOf homePath c)])
    else
      CreateKeybase env homePath c

/-- The `initConfig` step that runs `validateConfig` and calls
`os.Exit(1)` exactly when it returned an error; yields the event trace. -/
def initConfigValidate (env : CfgEnv) (homePath : String) (c : Config) : List CfgEvent :=
  match validateConfig env homePath c with
  | (some _, evs) => evs ++ [.exitCode 1]
  | (none, evs) => evs

/-- Opaque model of an `sdk.Msg`; its `ValidateBasic` behaviour lives in
the environment. -/
structure Msg where
  payload : Nat
  deriving DecidableEq, Inhabited

/-- Model of an `sdk.TxResponse`. -/
structure TxResponse where
  code : Nat
  rawLog : String
  deriving DecidableEq, Inhabited

/-- Externally observable steps of the pipeline.  `getAccount`,
`enrichGas` and `broadcastTx` hit the network; `signTx` is the local
build-and-sign step. -/
inductive NetEvent where
  | getAccount
  | enrichGas
  | signTx
  | broadcastTx
  deriving DecidableEq

/-- Environment of externals used by `SendMsgs` / `BuildAndSignTx`:
per-message local validation, the account query, gas estimation, the
signer and the broadcaster. -/
structure TxEnv where
  validateBasic : Msg → Option Err
  getAccount : Except Err (Nat × Nat)
  enrichGas : List Msg → Except Err Nat
  buildAndSign : List Msg → Except Err Bytes
  broadcastCommit : Bytes → Except Err TxResponse

/-- `BuildAndSignTx`: fetch account and sequence numbers, estimate gas,
then build and sign; the first failing step's error is returned. -/
def BuildAndSignTx (env : TxEnv) (msgs : List Msg) : Except Err Bytes × List NetEvent :=
  match env.getAccount with
  | .error e => (.error e, [.getAccount])
  | .ok _ =>
    match env.enrichGas msgs with
    | .error e => (.error e, [.getAccount, .enrichGas])
    | .ok _ =>
      match env.buildAndSign msgs with
      | .error e => (.error e, [.getAccount, .enrichGas, .signTx])
      | .ok b => (.ok b, [.getAccount, .enrichGas, .signTx])

/-- The `for` loop at the head of `SendMsgs`: validate each message in
batch order, returning the first `ValidateBasic` error. -/
def validateAllMsgs (env : TxEnv) : List Msg → Option Err
  | [] => none
  | m :: rest =>
    match env.validateBasic m with
    | some e => some e
    | none => validateAllMsgs env rest

/-- `SendMsgs`: validate every message locally, then build, sign and
broadcast, blocking until commit; errors short-circuit. -/
def SendMsgs (env : TxEnv) (msgs : List Msg) :
    Except Err TxResponse × List NetEvent :=
  match validateAllMsgs env msgs with
  | some e => (.error e, [])
  | none =>
    let p := BuildAndSignTx env msgs
    match p.1 with
    | .error e => (.error e, p.2)
    | .ok b =>
      match env.broadcastCommit b with
      | .error e => (.error e, p.2 ++ [.broadcastTx])
      | .ok r => (.ok r, p.2 ++ [.broadcastTx])

/-- Opaque model of the `pflag.FlagSet` handed to
`dcli.DeploymentIDFromFlags`. -/
structure FlagSet where
  raw : List (String × String)

/-- Environment of externals used by `NewDeploymentData`: file reading,
the SDL parser, manifest/version derivation, flag parsing and the
configured client's `BlockHeight` query (`Status().SyncInfo`). -/
structure Env where
  readFile : String → Except Err Bytes
  sdlRead : Bytes → Except Err SDL
  deploymentGroups : SDL → Except Err (List Nat)
  groupStore : Nat → GroupSpec
  manifestOf : SDL → Except Err Manifest
  manifestVersion : Manifest → Except Err Bytes
  deploymentIDFromFlags : FlagSet → String → Except Err DeploymentID
  blockHeight : Except Err Nat

/-- `NewDeploymentData` returns a `DeploymentData` struct initialized from
a file and flags: every failing step's error is returned; a zero `DSeq`
from the flags is replaced by the current block height. -/
def NewDeploymentData (env : Env) (file : String) (flags : FlagSet) (depAddr : String) :
    Except Err DeploymentData :=
  match env.readFile file with
  | .error e => .error e
  | .ok f =>
  match env.sdlRead f with
  | .error e => .error e
  | .ok sdlSpec =>
  match env.deploymentGroups sdlSpec with
  | .error e => .error e
  | .ok groups =>
  match env.manifestOf sdlSpec with
  | .error e => .error e
  | .ok mani =>
  match env.manifestVersion mani with
  | .error e => .error e
  | .ok ver =>
  match env.deploymentIDFromFlags flags depAddr with
  | .error e => .error e
  | .ok id0 =>
  match (if id0.dseq = 0 then
          match env.blockHeight with
          | .error e => Except.error e
          | .ok ht => Except.ok { id0 with dseq := ht }
         else Except.ok id0) with
  | .error e => .error e
  | .ok idF =>
    .ok { SDLFile := f
          sdl := sdlSpec
          manifest := mani
          groupStore := env.groupStore
          Groups := groups
          DeploymentID := idF
          heapO := GoHeap.empty Deploy.OrderID
          OrderID := ⟨0, 0, 0⟩
          heapL := GoHeap.empty Deploy.LeaseID
          LeaseID := ⟨0, 0, 0⟩
          Version := ver }

/-- Well-formedness of a slice header over a heap: the length is within the
capacity and the backing array really has at least `cap` cells. -/
def WFslice (h : GoHeap α) (s : GoSlice) : Prop :=
  s.len ≤ s.cap ∧ s.cap ≤ (h.arrays s.aid).length

instance (h : GoHeap α) (s : GoSlice) : Decidable (WFslice h s) :=
  inferInstanceAs (Decidable (s.len ≤ s.cap ∧ s.cap ≤ (h.arrays s.aid).length))

/-- Safety of a snapshot window (array `a`, first `n` cells) with respect
to a live slice: if the live slice shares the snapshot's backing array and
has spare capacity (so an append would write in place), then it writes at
an index past the window. -/
def SnapSafe (a n : Nat) (s : GoSlice) : Prop :=
  s.aid = a → s.len < s.cap → n ≤ s.len

/-- Well-formedness of a tracker state: both collections' slice headers are
well formed and point below their heap's allocation counter.  This holds
for every tracker built by `NewDeploymentData` and is preserved by every
mutator. -/
def DDWF (dd : DeploymentData) : Prop :=
  WFslice dd.heapO dd.OrderID ∧ dd.OrderID.aid < dd.heapO.next ∧
  WFslice dd.heapL dd.LeaseID ∧ dd.LeaseID.aid < dd.heapL.next

instance (dd : DeploymentData) : Decidable (DDWF dd) :=
  inferInstanceAs (Decidable (WFslice dd.heapO dd.OrderID ∧
    dd.OrderID.aid < dd.heapO.next ∧
    WFslice dd.heapL dd.LeaseID ∧ dd.LeaseID.aid < dd.heapL.next))

/-- One call on the order collection. -/
inductive OrderOp where
  | add (o : OrderID)
  | remove (o : OrderID)
  deriving DecidableEq

/-- One call on the lease collection. -/
inductive LeaseOp where
  | add (x : LeaseID)
  | remove (x : LeaseID)
  deriving DecidableEq

/-- Execute a sequence of `AddOrder` / `RemoveOrder` calls.  Each call
holds the exclusive write lock, so a concurrent execution is equivalent to
some such sequence. -/
def applyOrderOps (dd : DeploymentData) : List OrderOp → DeploymentData
  | [] => dd
  | .add o :: rest => applyOrderOps (dd.AddOrder o) rest
  | .remove o :: rest => applyOrderOps (dd.RemoveOrder o) rest

/-- Execute a sequence of `AddLease` / `RemoveLease` calls. -/
def applyLeaseOps (dd : DeploymentData) : List LeaseOp → DeploymentData
  | [] => dd
  | .add x :: rest => applyLeaseOps (dd.AddLease x) rest
  | .remove x :: rest => applyLeaseOps (dd.RemoveLease x) rest

/-- Pure-list semantics of one order call. -/
def orderStep (l : List OrderID) : OrderOp → List OrderID
  | .add o => l ++ [o]
  | .remove o => l.filter (fun y => !(o == y))

/-- Pure-list semantics of a sequence of order calls. -/
def runOrderOps (l : List OrderID) (ops : List OrderOp) : List OrderID :=
  ops.foldl orderStep l

/-- Pure-list semantics of one lease call. -/
def leaseStep (l : List LeaseID) : LeaseOp → List LeaseID
  | .add x => l ++ [x]
  | .remove x => l.filter (fun y => !(x == y))

/-- Pure-list semantics of a sequence of lease calls. -/
def runLeaseOps (l : List LeaseID) (ops : List LeaseOp) : List LeaseID :=
  ops.foldl leaseStep l

/-- The ids added by a call sequence, in order. -/
def addedIds : List OrderOp → List OrderID
  | [] => []
  | .add y :: rest => y :: addedIds rest
  | .remove _ :: rest => addedIds rest

/-- An id is added at some point of the sequence and never removed
afterwards. -/
def addedNotRemoved (x : OrderID) : List OrderOp → Bool
  | [] => false
  | .add y :: rest => (x == y && !(rest.contains (OrderOp.remove x))) || addedNotRemoved x rest
  | .remove _ :: rest => addedNotRemoved x rest

/-- Number of `AddLease` calls in a sequence. -/
def numLeaseAdds : List LeaseOp → Nat
  | [] => 0
  | .add _ :: rest => numLeaseAdds rest + 1
  | .remove _ :: rest => numLeaseAdds rest

/-- Number of `RemoveLease` calls in a sequence. -/
def numLeaseRemoves : List LeaseOp → Nat
  | [] => 0
  | .add _ :: rest => numLeaseRemoves rest
  | .remove _ :: rest => numLeaseRemoves rest + 1

/-- Every remove in the sequence targets an id tracked exactly once at the
moment of removal (so each `RemoveLease` deletes exactly one element). -/
def validRemoveSeq : List LeaseID → List LeaseOp → Bool
  | _, [] => true
  | l, .add x :: rest => validRemoveSeq (l ++ [x]) rest
  | l, .remove x :: rest =>
    (l.count x == 1) && validRemoveSeq (l.filter (fun y => !(x == y))) rest

/-- A concrete order id. -/
def exOrder : OrderID := ⟨"akash1deployer", 7, 1, 1⟩

/-- A second, distinct order id. -/
def exOrder2 : OrderID := ⟨"akash1deployer", 7, 2, 1⟩

/-- A concrete lease id. -/
def exLease : LeaseID := ⟨"akash1deployer", 7, 1, 1, "akash1provider"⟩

/-- A concrete tracker state with two groups and empty collections. -/
def exDD : DeploymentData :=
  { SDLFile := []
    sdl := ⟨0⟩
    manifest := ⟨0⟩
    groupStore := fun _ => ⟨0⟩
    Groups := [0, 1]
    DeploymentID := ⟨"akash1deployer", 7⟩
    heapO := GoHeap.empty OrderID
    OrderID := ⟨0, 0, 0⟩
    heapL := GoHeap.empty LeaseID
    LeaseID := ⟨0, 0, 0⟩
    Version := [1] }

/-- A concrete construction environment in which every external step
succeeds and the flags carry deployment sequence 5. -/
def exEnv : Env :=
  { readFile := fun _ => .ok [10]
    sdlRead := fun _ => .ok ⟨1⟩
    deploymentGroups := fun _ => .ok [0, 1]
    groupStore := fun _ => ⟨0⟩
    manifestOf := fun _ => .ok ⟨2⟩
    manifestVersion := fun _ => .ok [9]
    deploymentIDFromFlags := fun _ addr => .ok ⟨addr, 5⟩
    blockHeight := .ok 42 }

/-- An empty flag set. -/
def exFlags : FlagSet := ⟨[]⟩

/-- The tracker `NewDeploymentData` builds under `exEnv`. -/
def exFreshDD : DeploymentData :=
  { SDLFile := [10]
    sdl := ⟨1⟩
    manifest := ⟨2⟩
    groupStore := fun _ => ⟨0⟩
    Groups := [0, 1]
    DeploymentID := ⟨"akash1deployer", 5⟩
    heapO := GoHeap.empty OrderID
    OrderID := ⟨0, 0, 0⟩
    heapL := GoHeap.empty LeaseID
    LeaseID := ⟨0, 0, 0⟩
    Version := [9] }

/-- A concrete order call sequence with no duplicate adds. -/
def exC1ops : List OrderOp := [.add exOrder, .add exOrder2, .remove exOrder]

/-- A concrete lease call sequence. -/
def exC3ops : List LeaseOp := [.add exLease, .remove exLease]

/-- A concrete transaction environment whose `ValidateBasic` rejects
messages with payload 0. -/
def exTxEnv : TxEnv :=
  { validateBasic := fun m => if m.payload = 0 then some ⟨"empty payload"⟩ else none
    getAccount := .ok (1, 2)
    enrichGas := fun _ => .ok 100000
    buildAndSign := fun _ => .ok [1, 2]
    broadcastCommit := fun _ => .ok ⟨0, "committed"⟩ }

/-- A concrete configuration environment: the RPC address parses, no file
exists on disk, key import would succeed. -/
def exCfgEnv : CfgEnv :=
  { rpcNewErr := fun _ => none
    fileExists := fun _ => false
    importKeyErr := none }

/-- A concrete configuration. -/
def exCfg : Config :=
  { chainID := "akashtest"
    rpcAddr := "http://localhost:26657"
    keyfile := "key.priv"
    keypass := "pass" }

/-- The duplicate-add counterexample sequence for the lease cardinality
claim: two adds of the same lease, then one remove. -/
def exC10ops : List LeaseOp := [.add exLease, .add exLease, .remove exLease]

/-! ## Theorems -/

/-- Appending always bumps the slice length by one. -/
theorem goAppend_len [Inhabited α] (h : GoHeap α) (s : GoSlice) (x : α) :
    (goAppend h s x).2.len = s.len + 1 := by
  by_cases hc : s.len < s.cap <;> simp [goAppend, hc, GoHeap.alloc]

/-- Appending preserves well-formedness of the live slice. -/
theorem goAppend_wf [Inhabited α] {h : GoHeap α} {s : GoSlice} (x : α)
    (hwf : WFslice h s) : WFslice (goAppend h s x).1 (goAppend h s x).2 := by
  obtain ⟨h1, h2⟩ := hwf
  by_cases hc : s.len < s.cap
  · simp only [goAppend, hc, if_true]
    exact ⟨hc, by simpa [GoHeap.write] using h2⟩
  · simp only [goAppend, hc, if_false, GoHeap.alloc]
    constructor
    · simp [le_max_iff]
    · simp only [eq_self_iff_true, if_true, List.length_append, List.length_take,
        List.length_cons, List.length_replicate]
      omega

/-- Appending never lowers the allocation counter. -/
theorem goAppend_next_le [Inhabited α] (h : GoHeap α) (s : GoSlice) (x : α) :
    h.next ≤ (goAppend h s x).1.next := by
  by_cases hc : s.len < s.cap <;> simp [goAppend, hc, GoHeap.write, GoHeap.alloc]

/-- The live slice keeps pointing below the allocation counter. -/
theorem goAppend_aid_lt [Inhabited α] {h : GoHeap α} {s : GoSlice} (x : α)
    (ha : s.aid < h.next) : (goAppend h s x).2.aid < (goAppend h s x).1.next := by
  by_cases hc : s.len < s.cap <;> simp [goAppend, hc, GoHeap.write, GoHeap.alloc, ha]

/-- The observable contents after an append are the old contents plus the
new element. -/
theorem goAppend_view [Inhabited α] {h : GoHeap α} {s : GoSlice} (x : α)
    (hwf : WFslice h s) :
    (goAppend h s x).1.view (goAppend h s x).2 = h.view s ++ [x] := by
  obtain ⟨h1, h2⟩ := hwf
  by_cases hc : s.len < s.cap
  · have hlt : s.len < (h.arrays s.aid).length := lt_of_lt_of_le hc h2
    simp only [goAppend, hc, if_true, GoHeap.view, GoHeap.write, eq_self_iff_true]
    rw [List.take_succ, List.set_take,
      List.set_eq_of_length_le (by simp [List.length_take]),
      List.getElem?_set_self hlt]
    rfl
  · have hle : s.len ≤ (h.arrays s.aid).length := le_trans h1 h2
    simp only [goAppend, hc, if_false, GoHeap.view, GoHeap.alloc, eq_self_iff_true, if_true]
    rw [List.take_append_eq_append_take]
    have hlen : ((h.arrays s.aid).take s.len).length = s.len := by
      simp [List.length_take, Nat.min_eq_left hle]
    rw [hlen]
    have hs1 : s.len + 1 - s.len = 1 := by omega
    rw [hs1]
    have ht : List.take (s.len + 1) ((h.arrays s.aid).take s.len) = (h.arrays s.aid).take s.len := by
      rw [List.take_take]
      congr 1
      omega
    rw [ht]
    rfl

/-- Appends never disturb a safe snapshot window. -/
theorem goAppend_frame [Inhabited α] {h : GoHeap α} {s : GoSlice} (x : α)
    {a n : Nat} (ha : a < h.next) (hsafe : SnapSafe a n s) :
    ((goAppend h s x).1.arrays a).take n = (h.arrays a).take n := by
  by_cases hc : s.len < s.cap
  · simp only [goAppend, hc, if_true, GoHeap.write]
    by_cases hb : a = s.aid
    · subst hb
      have hn : n ≤ s.len := hsafe rfl hc
      simp only [eq_self_iff_true, if_true]
      rw [List.set_take, List.set_eq_of_length_le (by simp [List.length_take]; omega)]
    · simp [Ne.symm hb, hb]
  · simp only [goAppend, hc, if_false, GoHeap.alloc]
    have : a ≠ h.next := Nat.ne_of_lt ha
    simp [this]

/-- Appends preserve snapshot safety of the live slice. -/
theorem goAppend_snapSafe [Inhabited α] {h : GoHeap α} {s : GoSlice} (x : α)
    {a n : Nat} (ha : a < h.next) (hsafe : SnapSafe a n s) :
    SnapSafe a n (goAppend h s x).2 := by
  by_cases hc : s.len < s.cap
  · intro heq _
    simp only [goAppend, hc, if_true] at heq ⊢
    have hn : n ≤ s.len := hsafe heq hc
    omega
  · intro heq
    simp only [goAppend, hc, if_false, GoHeap.alloc] at heq
    exact absurd heq (Nat.ne_of_lt ha).symm.elim

/-- A nil slice is well formed over any heap. -/
theorem wfslice_goNil (h : GoHeap α) : WFslice h goNil :=
  ⟨Nat.le_refl 0, Nat.zero_le _⟩

/-- The view of a nil slice is empty. -/
theorem view_goNil (h : GoHeap α) : h.view goNil = [] := by
  simp [GoHeap.view, goNil]

/-- The observable length of a well-formed slice is its `len` field. -/
theorem view_length {h : GoHeap α} {s : GoSlice} (hwf : WFslice h s) :
    (h.view s).length = s.len := by
  obtain ⟨h1, h2⟩ := hwf
  simp [GoHeap.view, List.length_take]
  omega

/-- The rebuild loop of `RemoveOrder` / `RemoveLease`: folding conditional
appends over `l` extends the accumulator's contents with the elements of
`l` not equal to `x`, and keeps the live slice well formed. -/
theorem remFold_view [DecidableEq α] [Inhabited α] (x : α) :
    ∀ (l : List α) (q : GoHeap α × GoSlice), WFslice q.1 q.2 →
      WFslice (l.foldl (fun q o => if x = o then q else goAppend q.1 q.2 o) q).1
        (l.foldl (fun q o => if x = o then q else goAppend q.1 q.2 o) q).2 ∧
      (l.foldl (fun q o => if x = o then q else goAppend q.1 q.2 o) q).1.view
        (l.foldl (fun q o => if x = o then q else goAppend q.1 q.2 o) q).2 =
        q.1.view q.2 ++ l.filter (fun o => !(x == o))
  | [], q, hwf => ⟨hwf, by simp⟩
  | o :: t, q, hwf => by
    by_cases hx : x = o
    · have ih := remFold_view x t q hwf
      simpa [List.foldl_cons, hx, List.filter_cons] using ih
    · have hwf' := goAppend_wf (h := q.1) (s := q.2) o hwf
      have ih := remFold_view x t (goAppend q.1 q.2 o) hwf'
      have hv := goAppend_view (h := q.1) (s := q.2) o hwf
      simp only [List.foldl_cons, if_neg hx, List.filter_cons]
      refine ⟨ih.1, ?_⟩
      rw [ih.2, hv]
      simp [hx, beq_iff_eq]

/-- The rebuild loop keeps the live slice pointing below the allocation
counter. -/
theorem remFold_aid_lt [DecidableEq α] [Inhabited α] (x : α) :
    ∀ (l : List α) (q : GoHeap α × GoSlice), q.2.aid < q.1.next →
      (l.foldl (fun q o => if x = o then q else goAppend q.1 q.2 o) q).2.aid <
        (l.foldl (fun q o => if x = o then q else goAppend q.1 q.2 o) q).1.next
  | [], q, ha => ha
  | o :: t, q, ha => by
    by_cases hx : x = o
    · simpa [List.foldl_cons, hx] using remFold_aid_lt x t q ha
    · have ha' := goAppend_aid_lt (h := q.1) (s := q.2) o ha
      simpa [List.foldl_cons, hx] using
        remFold_aid_lt x t (goAppend q.1 q.2 o) ha'

/-- The rebuild loop never disturbs a safe snapshot window and preserves
its safety. -/
theorem remFold_frame [DecidableEq α] [Inhabited α] (x : α) {a n : Nat} :
    ∀ (l : List α) (q : GoHeap α × GoSlice), a < q.1.next → SnapSafe a n q.2 →
      (((l.foldl (fun q o => if x = o then q else goAppend q.1 q.2 o) q).1.arrays a).take n =
        ((q.1.arrays a).take n)) ∧
      a < (l.foldl (fun q o => if x = o then q else goAppend q.1 q.2 o) q).1.next ∧
      SnapSafe a n (l.foldl (fun q o => if x = o then q else goAppend q.1 q.2 o) q).2
  | [], q, ha, hsafe => ⟨rfl, ha, hsafe⟩
  | o :: t, q, ha, hsafe => by
    by_cases hx : x = o
    · simpa [List.foldl_cons, hx] using remFold_frame x t q ha hsafe
    · have hfr := goAppend_frame (h := q.1) (s := q.2) o ha hsafe
      have ha' : a < (goAppend q.1 q.2 o).1.next :=
        lt_of_lt_of_le ha (goAppend_next_le q.1 q.2 o)
      have hsafe' := goAppend_snapSafe (h := q.1) (s := q.2) o ha hsafe
      have ih := remFold_frame x t (goAppend q.1 q.2 o) ha' hsafe'
      simp only [List.foldl_cons, if_neg hx]
      exact ⟨ih.1.trans hfr, ih.2.1, ih.2.2⟩

/-- `AddOrder` appends to the observable order collection. -/
theorem AddOrder_orderView {dd : DeploymentData} (hwf : DDWF dd) (x : OrderID) :
    (dd.AddOrder x).orderView = dd.orderView ++ [x] := by
  simpa [DeploymentData.AddOrder, DeploymentData.orderView] using
    goAppend_view (h := dd.heapO) (s := dd.OrderID) x hwf.1

/-- `AddOrder` preserves tracker well-formedness. -/
theorem AddOrder_ddwf {dd : DeploymentData} (hwf : DDWF dd) (x : OrderID) :
    DDWF (dd.AddOrder x) := by
  obtain ⟨hwo, hao, hwl, hal⟩ := hwf
  exact ⟨goAppend_wf x hwo, goAppend_aid_lt x hao, hwl, hal⟩

/-- `RemoveOrder` filters the observable order collection, comparing by
value equality. -/
theorem RemoveOrder_orderView (dd : DeploymentData) (x : OrderID) :
    (dd.RemoveOrder x).orderView = dd.orderView.filter (fun o => !(x == o)) := by
  have h := remFold_view x (dd.heapO.view dd.OrderID) (dd.heapO, goNil)
    (wfslice_goNil dd.heapO)
  simpa [DeploymentData.RemoveOrder, DeploymentData.orderView, view_goNil] using h.2

/-- `RemoveOrder` preserves tracker well-formedness. -/
theorem RemoveOrder_ddwf {dd : DeploymentData} (hwf : DDWF dd) (x : OrderID) :
    DDWF (dd.RemoveOrder x) := by
  obtain ⟨hwo, hao, hwl, hal⟩ := hwf
  have h := remFold_view x (dd.heapO.view dd.OrderID) (dd.heapO, goNil)
    (wfslice_goNil dd.heapO)
  have ha := remFold_aid_lt x (dd.heapO.view dd.OrderID) (dd.heapO, goNil)
    (by simpa [goNil] using Nat.lt_of_le_of_lt (Nat.zero_le _) hao)
  exact ⟨h.1, ha, hwl, hal⟩

/-- `AddLease` appends to the observable lease collection. -/
theorem AddLease_leaseView {dd : DeploymentData} (hwf : DDWF dd) (x : LeaseID) :
    (dd.AddLease x).leaseView = dd.leaseView ++ [x] := by
  simpa [DeploymentData.AddLease, DeploymentData.leaseView] using
    goAppend_view (h := dd.heapL) (s := dd.LeaseID) x hwf.2.2.1

/-- `AddLease` preserves tracker well-formedness. -/
theorem AddLease_ddwf {dd : DeploymentData} (hwf : DDWF dd) (x : LeaseID) :
    DDWF (dd.AddLease x) := by
  obtain ⟨hwo, hao, hwl, hal⟩ := hwf
  exact ⟨hwo, hao, goAppend_wf x hwl, goAppend_aid_lt x hal⟩

/-- `RemoveLease` filters the observable lease collection, comparing by
value equality. -/
theorem RemoveLease_leaseView (dd : DeploymentData) (x : LeaseID) :
    (dd.RemoveLease x).leaseView = dd.leaseView.filter (fun o => !(x == o)) := by
  have h := remFold_view x (dd.heapL.view dd.LeaseID) (dd.heapL, goNil)
    (wfslice_goNil dd.heapL)
  simpa [DeploymentData.RemoveLease, DeploymentData.leaseView, view_goNil] using h.2

/-- `RemoveLease` preserves tracker well-formedness. -/
theorem RemoveLease_ddwf {dd : DeploymentData} (hwf : DDWF dd) (x : LeaseID) :
    DDWF (dd.RemoveLease x) := by
  obtain ⟨hwo, hao, hwl, hal⟩ := hwf
  have h := remFold_view x (dd.heapL.view dd.LeaseID) (dd.heapL, goNil)
    (wfslice_goNil dd.heapL)
  have ha := remFold_aid_lt x (dd.heapL.view dd.LeaseID) (dd.heapL, goNil)
    (by simpa [goNil] using Nat.lt_of_le_of_lt (Nat.zero_le _) hal)
  exact ⟨hwo, hao, h.1, ha⟩

/-- The tracker refines the pure-list semantics on orders: applying a call
sequence keeps the state well formed and its observable order collection
is the pure fold. -/
theorem applyOrderOps_view :
    ∀ (ops : List OrderOp) (dd : DeploymentData), DDWF dd →
      DDWF (applyOrderOps dd ops) ∧
      (applyOrderOps dd ops).orderView = runOrderOps dd.orderView ops
  | [], dd, hwf => ⟨hwf, rfl⟩
  | .add o :: rest, dd, hwf => by
    have ih := applyOrderOps_view rest (dd.AddOrder o) (AddOrder_ddwf hwf o)
    refine ⟨ih.1, ?_⟩
    rw [show applyOrderOps dd (.add o :: rest) = applyOrderOps (dd.AddOrder o) rest from rfl,
      ih.2, AddOrder_orderView hwf o]
    rfl
  | .remove o :: rest, dd, hwf => by
    have ih := applyOrderOps_view rest (dd.RemoveOrder o) (RemoveOrder_ddwf hwf o)
    refine ⟨ih.1, ?_⟩
    rw [show applyOrderOps dd (.remove o :: rest) = applyOrderOps (dd.RemoveOrder o) rest from rfl,
      ih.2, RemoveOrder_orderView dd o]
    rfl

/-- The tracker refines the pure-list semantics on leases. -/
theorem applyLeaseOps_view :
    ∀ (ops : List LeaseOp) (dd : DeploymentData), DDWF dd →
      DDWF (applyLeaseOps dd ops) ∧
      (applyLeaseOps dd ops).leaseView = runLeaseOps dd.leaseView ops
  | [], dd, hwf => ⟨hwf, rfl⟩
  | .add x :: rest, dd, hwf => by
    have ih := applyLeaseOps_view rest (dd.AddLease x) (AddLease_ddwf hwf x)
    refine ⟨ih.1, ?_⟩
    rw [show applyLeaseOps dd (.add x :: rest) = applyLeaseOps (dd.AddLease x) rest from rfl,
      ih.2, AddLease_leaseView hwf x]
    rfl
  | .remove x :: rest, dd, hwf => by
    have ih := applyLeaseOps_view rest (dd.RemoveLease x) (RemoveLease_ddwf hwf x)
    refine ⟨ih.1, ?_⟩
    rw [show applyLeaseOps dd (.remove x :: rest) = applyLeaseOps (dd.RemoveLease x) rest from rfl,
      ih.2, RemoveLease_leaseView dd x]
    rfl

/-- Membership in the pure order run: an id is present after the run if it
was present initially and never removed, or it was added and not
subsequently removed. -/
theorem runOrderOps_mem (x : OrderID) :
    ∀ (ops : List OrderOp) (l : List OrderID),
      x ∈ runOrderOps l ops ↔
        (x ∈ l ∧ OrderOp.remove x ∉ ops) ∨ addedNotRemoved x ops = true
  | [], l => by simp [runOrderOps, addedNotRemoved]
  | .add y :: rest, l => by
    have ih := runOrderOps_mem x rest (l ++ [y])
    have hA : (addedNotRemoved x (OrderOp.add y :: rest) = true) ↔
        ((x = y ∧ OrderOp.remove x ∉ rest) ∨ addedNotRemoved x rest = true) := by
      simp [addedNotRemoved, List.contains]
    have hM : (OrderOp.remove x ∈ (OrderOp.add y :: rest)) ↔ OrderOp.remove x ∈ rest := by
      simp
    have hL : x ∈ l ++ [y] ↔ (x ∈ l ∨ x = y) := by simp
    rw [show runOrderOps l (.add y :: rest) = runOrderOps (l ++ [y]) rest from rfl,
      ih, hA, hM, hL]
    tauto
  | .remove y :: rest, l => by
    have ih := runOrderOps_mem x rest (l.filter (fun z => !(y == z)))
    have hA : (addedNotRemoved x (OrderOp.remove y :: rest) = true) ↔
        addedNotRemoved x rest = true := by
      simp [addedNotRemoved]
    have hM : (OrderOp.remove x ∈ (OrderOp.remove y :: rest)) ↔
        (x = y ∨ OrderOp.remove x ∈ rest) := by
      simp
    have hF : x ∈ l.filter (fun z => !(y == z)) ↔ (x ∈ l ∧ ¬ x = y) := by
      simp [List.mem_filter]
      intro _
      exact ⟨fun h1 h2 => h1 h2.symm, fun h1 h2 => h1 h2.symm⟩
    rw [show runOrderOps l (.remove y :: rest) =
      runOrderOps (l.filter (fun z => !(y == z))) rest from rfl, ih, hA, hM, hF]
    tauto

/-- With no duplicate adds, the pure order run has no duplicates (starting
from a list that, together with the ids still to be added, has none). -/
theorem runOrderOps_nodup :
    ∀ (ops : List OrderOp) (l : List OrderID), (l ++ addedIds ops).Nodup →
      (runOrderOps l ops).Nodup
  | [], l, hnd => by simpa [runOrderOps, addedIds] using hnd
  | .add y :: rest, l, hnd => by
    refine runOrderOps_nodup rest (l ++ [y]) ?_
    simpa [addedIds, List.append_assoc] using hnd
  | .remove y :: rest, l, hnd => by
    refine runOrderOps_nodup rest (l.filter (fun z => !(y == z))) ?_
    have hsub : List.Sublist (l.filter (fun z => !(y == z)) ++ addedIds rest)
        (l ++ addedIds rest) :=
      List.Sublist.append_right (List.filter_sublist l) _
    exact hsub.nodup (by simpa [addedIds] using hnd)

/-- Filtering away every copy of `x` shortens a list by its count of `x`. -/
theorem length_filter_count {α : Type} [DecidableEq α] (x : α) :
    ∀ l : List α, (l.filter (fun y => !(x == y))).length = l.length - l.count x
  | [] => rfl
  | a :: t => by
    have ih := length_filter_count x t
    have hcl := List.count_le_length x t
    by_cases hax : x = a
    · subst hax
      simp [List.filter_cons, List.count_cons, ih]
    · simp [List.filter_cons, List.count_cons, beq_iff_eq, hax, ih]
      omega

/-- Under `validRemoveSeq`, the pure lease run's final length is the
initial length plus adds minus removes. -/
theorem runLeaseOps_length :
    ∀ (ops : List LeaseOp) (l : List LeaseID), validRemoveSeq l ops = true →
      ((runLeaseOps l ops).length : ℤ) =
        (l.length : ℤ) + numLeaseAdds ops - numLeaseRemoves ops
  | [], l, _ => by simp [runLeaseOps, numLeaseAdds, numLeaseRemoves]
  | .add x :: rest, l, hv => by
    have ih := runLeaseOps_length rest (l ++ [x])
      (by simpa [validRemoveSeq] using hv)
    rw [show runLeaseOps l (.add x :: rest) = runLeaseOps (l ++ [x]) rest from rfl, ih]
    simp only [numLeaseAdds, numLeaseRemoves, List.length_append, List.length_cons,
      List.length_nil]
    omega
  | .remove x :: rest, l, hv => by
    obtain ⟨h1, h2⟩ :
        l.count x = 1 ∧ validRemoveSeq (l.filter (fun y => !(x == y))) rest = true := by
      simpa [validRemoveSeq, Bool.and_eq_true, beq_iff_eq] using hv
    have ih := runLeaseOps_length rest (l.filter (fun y => !(x == y))) h2
    have hlen : (l.filter (fun y => !(x == y))).length = l.length - 1 := by
      rw [length_filter_count x l, h1]
    have hpos : 1 ≤ l.length := by
      have := List.count_le_length x l
      omega
    rw [show runLeaseOps l (.remove x :: rest) =
      runLeaseOps (l.filter (fun y => !(x == y))) rest from rfl, ih, hlen]
    simp only [numLeaseAdds, numLeaseRemoves]
    omega

/-- A nil slice is safe for any snapshot window. -/
theorem snapSafe_goNil (a n : Nat) : SnapSafe a n goNil := by
  intro _ h
  simp [goNil] at h

/-- A slice is safe for its own window. -/
theorem snapSafe_self (s : GoSlice) : SnapSafe s.aid s.len s :=
  fun _ _ => Nat.le_refl _

/-- Applying any sequence of lease calls never disturbs the first
`s0.len` cells of array `s0.aid`, provided the window is safe for the
live slice and its array was allocated before. -/
theorem snapWindow_leaseOps (s0 : GoSlice) :
    ∀ (ops : List LeaseOp) (dd : DeploymentData),
      s0.aid < dd.heapL.next → SnapSafe s0.aid s0.len dd.LeaseID →
      ((applyLeaseOps dd ops).heapL.arrays s0.aid).take s0.len =
        (dd.heapL.arrays s0.aid).take s0.len ∧
      s0.aid < (applyLeaseOps dd ops).heapL.next ∧
      SnapSafe s0.aid s0.len (applyLeaseOps dd ops).LeaseID
  | [], dd, ha, hs => ⟨rfl, ha, hs⟩
  | .add x :: rest, dd, ha, hs => by
    have hfr := goAppend_frame (h := dd.heapL) (s := dd.LeaseID) x ha hs
    have ha' : s0.aid < (dd.AddLease x).heapL.next :=
      lt_of_lt_of_le ha (goAppend_next_le dd.heapL dd.LeaseID x)
    have hs' : SnapSafe s0.aid s0.len (dd.AddLease x).LeaseID :=
      goAppend_snapSafe (h := dd.heapL) (s := dd.LeaseID) x ha hs
    have ih := snapWindow_leaseOps s0 rest (dd.AddLease x) ha' hs'
    exact ⟨ih.1.trans hfr, ih.2⟩
  | .remove x :: rest, dd, ha, hs => by
    have h := remFold_frame x (dd.heapL.view dd.LeaseID) (dd.heapL, goNil) ha
      (snapSafe_goNil s0.aid s0.len)
    have ih := snapWindow_leaseOps s0 rest (dd.RemoveLease x) h.2.1 h.2.2
    exact ⟨ih.1.trans h.1, ih.2⟩

/-- If every message passes `ValidateBasic`, the validation loop reports
no error. -/
theorem validateAllMsgs_none (env : TxEnv) :
    ∀ msgs : List Msg, (∀ m ∈ msgs, env.validateBasic m = none) →
      validateAllMsgs env msgs = none
  | [], _ => rfl
  | m :: rest, h => by
    have hm := h m (by simp)
    simp only [validateAllMsgs, hm]
    exact validateAllMsgs_none env rest (fun m' hm' => h m' (by simp [hm']))

/-- If some message fails `ValidateBasic`, the validation loop reports the
error of the first failing message, every message before it validating. -/
theorem validateAllMsgs_first (env : TxEnv) :
    ∀ msgs : List Msg, (∃ m ∈ msgs, env.validateBasic m ≠ none) →
      ∃ i, ∃ hi : i < msgs.length,
        (∀ j, ∀ hj : j < msgs.length, j < i →
          env.validateBasic (msgs.get ⟨j, hj⟩) = none) ∧
        ∃ e, env.validateBasic (msgs.get ⟨i, hi⟩) = some e ∧
          validateAllMsgs env msgs = some e
  | [], h => by simp at h
  | m :: rest, h => by
    cases hm : env.validateBasic m with
    | some e =>
      refine ⟨0, by simp, fun j hj hji => absurd hji (by omega), e, ?_, ?_⟩
      · simpa using hm
      · simp [validateAllMsgs, hm]
    | none =>
      have hrest : ∃ m' ∈ rest, env.validateBasic m' ≠ none := by
        obtain ⟨m', hm', hne⟩ := h
        rcases List.mem_cons.mp hm' with heq | hmem
        · exact absurd (heq ▸ hm) hne
        · exact ⟨m', hmem, hne⟩
      obtain ⟨i, hi, hpre, e, he, hall⟩ := validateAllMsgs_first env rest hrest
      refine ⟨i + 1, by simpa using Nat.succ_lt_succ hi, ?_, e, ?_, ?_⟩
      · intro j hj hji
        cases j with
        | zero => simpa using hm
        | succ j' =>
          have hj' : j' < rest.length := by simpa using Nat.lt_of_succ_lt_succ hj
          have := hpre j' hj' (Nat.lt_of_succ_lt_succ hji)
          simpa using this
      · simpa using he
      · simp [validateAllMsgs, hm, hall]

/-- Folding singleton appends is `map` (the `MsgCreate` group loop). -/
theorem foldl_append_map {β γ : Type} (f : β → γ) :
    ∀ (l : List β) (acc : List γ),
      List.foldl (fun acc p => acc ++ [f p]) acc l = acc ++ l.map f
  | [], acc => by simp
  | b :: t, acc => by
    simp [foldl_append_map f t (acc ++ [f b])]

/-- A tracker returned by `NewDeploymentData` is well formed and starts
with empty order and lease collections. -/
theorem NewDeploymentData_fresh {env : Env} {file : String} {flags : FlagSet}
    {depAddr : String} {dd : DeploymentData}
    (h : NewDeploymentData env file flags depAddr = Except.ok dd) :
    DDWF dd ∧ dd.orderView = [] ∧ dd.leaseView = [] := by
  unfold NewDeploymentData at h
  repeat' split at h
  all_goals first
    | exact Except.noConfusion h
    | (injection h with h
       subst h
       exact ⟨⟨⟨Nat.le_refl 0, Nat.zero_le _⟩, Nat.one_pos,
         ⟨Nat.le_refl 0, Nat.zero_le _⟩, Nat.one_pos⟩, rfl, rfl⟩)

/-- C1: starting from a freshly constructed tracker, after any sequence of
`AddOrder` / `RemoveOrder` calls with no duplicate adds, the order
collection holds, without duplicates, exactly the ids that were added and
not subsequently removed — whatever the interleaving of calls. -/
theorem C1_order_set_exact {env : Env} {file : String} {flags : FlagSet}
    {depAddr : String} {dd : DeploymentData} (ops : List OrderOp)
    (hnew : NewDeploymentData env file flags depAddr = Except.ok dd)
    (hnd : (addedIds ops).Nodup) :
    (applyOrderOps dd ops).orderView.Nodup ∧
    ∀ x, x ∈ (applyOrderOps dd ops).orderView ↔ addedNotRemoved x ops = true := by
  obtain ⟨hwf, hov, _⟩ := NewDeploymentData_fresh hnew
  obtain ⟨_, hview⟩ := applyOrderOps_view ops dd hwf
  rw [hview, hov]
  constructor
  · exact runOrderOps_nodup ops [] (by simpa using hnd)
  · intro x
    rw [runOrderOps_mem x ops []]
    simp

/-- C1 witness at a concrete environment and call sequence. -/
theorem C1_order_set_exact_witness :
    (applyOrderOps exFreshDD exC1ops).orderView.Nodup ∧
    (exOrder2 ∈ (applyOrderOps exFreshDD exC1ops).orderView ↔
      addedNotRemoved exOrder2 exC1ops = true) := by
  have h := @C1_order_set_exact exEnv "deploy.yaml" exFlags "akash1deployer"
    exFreshDD exC1ops rfl (by decide)
  exact ⟨h.1, h.2 exOrder2⟩

/-- C2: `ExpectedOrders` returns true exactly when the observable order
collection has as many elements as there are groups, and `ExpectedLeases`
likewise for the lease collection. -/
theorem C2_expected_counts (dd : DeploymentData) (hwf : DDWF dd) :
    (dd.ExpectedOrders = true ↔ dd.orderView.length = dd.Groups.length) ∧
    (dd.ExpectedLeases = true ↔ dd.leaseView.length = dd.Groups.length) := by
  have h1 : dd.orderView.length = dd.OrderID.len := view_length hwf.1
  have h2 : dd.leaseView.length = dd.LeaseID.len := view_length hwf.2.2.1
  rw [h1, h2]
  constructor
  · show (dd.Groups.length == dd.OrderID.len) = true ↔ dd.OrderID.len = dd.Groups.length
    rw [beq_iff_eq]
    exact eq_comm
  · show (dd.Groups.length == dd.LeaseID.len) = true ↔ dd.LeaseID.len = dd.Groups.length
    rw [beq_iff_eq]
    exact eq_comm

/-- C2 witness at a concrete tracker. -/
theorem C2_expected_counts_witness :
    (exDD.ExpectedOrders = true ↔ exDD.orderView.length = exDD.Groups.length) ∧
    (exDD.ExpectedLeases = true ↔ exDD.leaseView.length = exDD.Groups.length) :=
  C2_expected_counts exDD (by decide)

/-- C3: the slice header returned by `Leases` observes the same length and
the same elements after any later sequence of `AddLease` / `RemoveLease`
calls: appends with spare capacity write past the snapshot's length, and
the remove loop rebuilds into freshly allocated arrays. -/
theorem C3_leases_snapshot (dd : DeploymentData) (hwf : DDWF dd) (ops : List LeaseOp) :
    (applyLeaseOps dd ops).heapL.view dd.Leases = dd.heapL.view dd.Leases ∧
    ((applyLeaseOps dd ops).heapL.view dd.Leases).length =
      (dd.heapL.view dd.Leases).length := by
  have h := snapWindow_leaseOps dd.LeaseID ops dd hwf.2.2.2 (snapSafe_self dd.LeaseID)
  have hv : (applyLeaseOps dd ops).heapL.view dd.Leases = dd.heapL.view dd.Leases := h.1
  exact ⟨hv, by rw [hv]⟩

/-- C3 witness at a concrete tracker and call sequence. -/
theorem C3_leases_snapshot_witness :
    (applyLeaseOps exDD exC3ops).heapL.view exDD.Leases = exDD.heapL.view exDD.Leases :=
  (C3_leases_snapshot exDD (by decide) exC3ops).1

/-- C4: removing an order id that is not in the order collection leaves
the collection's contents and size unchanged, and likewise for leases;
comparison is by value equality. -/
theorem C4_remove_absent_noop (dd : DeploymentData) (o : OrderID) (x : LeaseID)
    (ho : o ∉ dd.orderView) (hx : x ∉ dd.leaseView) :
    (dd.RemoveOrder o).orderView = dd.orderView ∧
    (dd.RemoveOrder o).orderView.length = dd.orderView.length ∧
    (dd.RemoveLease x).leaseView = dd.leaseView ∧
    (dd.RemoveLease x).leaseView.length = dd.leaseView.length := by
  have h1 : dd.orderView.filter (fun y => !(o == y)) = dd.orderView :=
    List.filter_eq_self.mpr (fun y hy => by
      simp only [Bool.not_eq_true', beq_eq_false_iff_ne, ne_eq]
      rintro rfl
      exact ho hy)
  have h2 : dd.leaseView.filter (fun y => !(x == y)) = dd.leaseView :=
    List.filter_eq_self.mpr (fun y hy => by
      simp only [Bool.not_eq_true', beq_eq_false_iff_ne, ne_eq]
      rintro rfl
      exact hx hy)
  rw [RemoveOrder_orderView dd o, RemoveLease_leaseView dd x, h1, h2]
  exact ⟨rfl, rfl, rfl, rfl⟩

/-- C4 witness: removing an absent id from a one-element collection. -/
theorem C4_remove_absent_noop_witness :
    ((exDD.AddOrder exOrder).RemoveOrder exOrder2).orderView =
      (exDD.AddOrder exOrder).orderView :=
  (C4_remove_absent_noop (exDD.AddOrder exOrder) exOrder2 exLease
    (by decide) (by decide)).1

/-- C5: `MsgCreate` is a pure function of the stored state: the message's
`ID` is the stored `DeploymentID`, its `Version` the stored version, and
its `Groups` the stored group pointers dereferenced in order (hence of the
same length); two calls on the same state are equal. -/
theorem C5_msgCreate_pure (dd : DeploymentData) :
    dd.MsgCreate.ID = dd.DeploymentID ∧
    dd.MsgCreate.Version = dd.Version ∧
    dd.MsgCreate.Groups = dd.Groups.map dd.groupStore ∧
    dd.MsgCreate.Groups.length = dd.Groups.length ∧
    dd.MsgCreate = dd.MsgCreate := by
  have hg : dd.MsgCreate.Groups = dd.Groups.map dd.groupStore := by
    simp [DeploymentData.MsgCreate, foldl_append_map]
  exact ⟨rfl, rfl, hg, by rw [hg]; simp, rfl⟩

/-- C6: if any message fails its local `ValidateBasic`, `SendMsgs` returns
the first failing message's error with no network interaction at all
(validation proceeds in batch order); if all validate, it runs the
build-sign-broadcast pipeline. -/
theorem C6_sendMsgs_validation (env : TxEnv) (msgs : List Msg) :
    ((∃ m ∈ msgs, env.validateBasic m ≠ none) →
      (SendMsgs env msgs).2 = [] ∧
      ∃ i, ∃ hi : i < msgs.length,
        (∀ j, ∀ hj : j < msgs.length, j < i →
          env.validateBasic (msgs.get ⟨j, hj⟩) = none) ∧
        ∃ e, env.validateBasic (msgs.get ⟨i, hi⟩) = some e ∧
          (SendMsgs env msgs).1 = Except.error e) ∧
    ((∀ m ∈ msgs, env.validateBasic m = none) →
      SendMsgs env msgs =
        (match (BuildAndSignTx env msgs).1 with
         | Except.error e => (Except.error e, (BuildAndSignTx env msgs).2)
         | Except.ok b =>
           match env.broadcastCommit b with
           | Except.error e =>
             (Except.error e, (BuildAndSignTx env msgs).2 ++ [NetEvent.broadcastTx])
           | Except.ok r =>
             (Except.ok r, (BuildAndSignTx env msgs).2 ++ [NetEvent.broadcastTx]))) := by
  constructor
  · intro h
    obtain ⟨i, hi, hpre, e, he, hall⟩ := validateAllMsgs_first env msgs h
    refine ⟨?_, i, hi, hpre, e, he, ?_⟩ <;> simp [SendMsgs, hall]
  · intro h
    have hv := validateAllMsgs_none env msgs h
    simp [SendMsgs, hv]

/-- C6 witness: a batch whose second message fails validation is rejected
with an empty network trace. -/
theorem C6_sendMsgs_validation_witness :
    (SendMsgs exTxEnv [⟨1⟩, ⟨0⟩]).2 = [] :=
  ((C6_sendMsgs_validation exTxEnv [⟨1⟩, ⟨0⟩]).1 (by decide)).1

/-- C7 counterexample: with a parseable RPC address and a keyfile missing
from disk, `validateConfig` returns nil after only printing a warning, no
keybase is created, and the process does not exit — contradicting the
claim that a missing keyfile is reported as an error and exits. -/
theorem C7_counterexample :
    (validateConfig exCfgEnv "/home/user" exCfg).1 = none ∧
    validateConfig exCfgEnv "/home/user" exCfg =
      (none, [CfgEvent.printWarn (keyPathOf "/home/user" exCfg)]) ∧
    CfgEvent.exitCode 1 ∉ initConfigValidate exCfgEnv "/home/user" exCfg ∧
    CfgEvent.keybaseCreated ∉ (validateConfig exCfgEnv "/home/user" exCfg).2 := by
  decide

/-- C7 amended: whenever the configured keyfile path does not exist,
`validateConfig` prints a warning naming the path, returns nil, skips
keybase creation, and `initConfig` does not exit. -/
theorem C7_missing_keyfile_warns (env : CfgEnv) (homePath : String) (c : Config)
    (hrpc : env.rpcNewErr c.rpcAddr = none)
    (hmiss : env.fileExists (keyPathOf homePath c) = false) :
    validateConfig env homePath c = (none, [CfgEvent.printWarn (keyPathOf homePath c)]) ∧
    CfgEvent.keybaseCreated ∉ (validateConfig env homePath c).2 ∧
    initConfigValidate env homePath c = [CfgEvent.printWarn (keyPathOf homePath c)] ∧
    CfgEvent.exitCode 1 ∉ initConfigValidate env homePath c := by
  have hval : validateConfig env homePath c =
      (none, [CfgEvent.printWarn (keyPathOf homePath c)]) := by
    simp [validateConfig, hrpc, hmiss]
  refine ⟨hval, ?_, ?_, ?_⟩ <;> simp [hval, initConfigValidate]

/-- C7 witness at the concrete configuration. -/
theorem C7_missing_keyfile_warns_witness :
    validateConfig exCfgEnv "/home/user" exCfg =
      (none, [CfgEvent.printWarn (keyPathOf "/home/user" exCfg)]) :=
  (C7_missing_keyfile_warns exCfgEnv "/home/user" exCfg rfl rfl).1

/-- C8: `AddOrder` and `AddLease` append unconditionally — a duplicate add
grows the collection by one and is retained — so `ExpectedOrders` can hold
with fewer distinct orders than groups, as the concrete two-group tracker
with the same order added twice shows. -/
theorem C8_add_no_dedup (dd : DeploymentData) (o : OrderID) (x : LeaseID)
    (hwf : DDWF dd) :
    (dd.AddOrder o).orderView = dd.orderView ++ [o] ∧
    (dd.AddOrder o).OrderID.len = dd.OrderID.len + 1 ∧
    (dd.AddLease x).leaseView = dd.leaseView ++ [x] ∧
    (dd.AddLease x).LeaseID.len = dd.LeaseID.len + 1 ∧
    ((exDD.AddOrder exOrder).AddOrder exOrder).ExpectedOrders = true ∧
    ((exDD.AddOrder exOrder).AddOrder exOrder).orderView.dedup.length <
      ((exDD.AddOrder exOrder).AddOrder exOrder).Groups.length := by
  refine ⟨AddOrder_orderView hwf o, ?_, AddLease_leaseView hwf x, ?_, by decide, by decide⟩
  · simpa [DeploymentData.AddOrder] using goAppend_len dd.heapO dd.OrderID o
  · simpa [DeploymentData.AddLease] using goAppend_len dd.heapL dd.LeaseID x

/-- C8 witness at a concrete tracker. -/
theorem C8_add_no_dedup_witness :
    (exDD.AddOrder exOrder).orderView = exDD.orderView ++ [exOrder] :=
  (C8_add_no_dedup exDD exOrder exLease (by decide)).1

/-- C9: `NewDeploymentData` keeps the flag-supplied sequence when nonzero,
substitutes the current block height when the flags give zero, and
propagates the error of a failing file read, SDL parse, or block-height
query. -/
theorem C9_sequence_selection (env : Env) (file : String) (flags : FlagSet)
    (depAddr : String) :
    (∀ f s g m v id0, env.readFile file = Except.ok f →
      env.sdlRead f = Except.ok s →
      env.deploymentGroups s = Except.ok g →
      env.manifestOf s = Except.ok m →
      env.manifestVersion m = Except.ok v →
      env.deploymentIDFromFlags flags depAddr = Except.ok id0 →
      id0.dseq ≠ 0 →
      ∃ dd, NewDeploymentData env file flags depAddr = Except.ok dd ∧
        dd.DeploymentID = id0) ∧
    (∀ f s g m v id0 ht, env.readFile file = Except.ok f →
      env.sdlRead f = Except.ok s →
      env.deploymentGroups s = Except.ok g →
      env.manifestOf s = Except.ok m →
      env.manifestVersion m = Except.ok v →
      env.deploymentIDFromFlags flags depAddr = Except.ok id0 →
      id0.dseq = 0 → env.blockHeight = Except.ok ht →
      ∃ dd, NewDeploymentData env file flags depAddr = Except.ok dd ∧
        dd.DeploymentID.dseq = ht ∧ dd.DeploymentID.owner = id0.owner) ∧
    (∀ e, env.readFile file = Except.error e →
      NewDeploymentData env file flags depAddr = Except.error e) ∧
    (∀ f e, env.readFile file = Except.ok f → env.sdlRead f = Except.error e →
      NewDeploymentData env file flags depAddr = Except.error e) ∧
    (∀ f s g m v id0 e, env.readFile file = Except.ok f →
      env.sdlRead f = Except.ok s →
      env.deploymentGroups s = Except.ok g →
      env.manifestOf s = Except.ok m →
      env.manifestVersion m = Except.ok v →
      env.deploymentIDFromFlags flags depAddr = Except.ok id0 →
      id0.dseq = 0 → env.blockHeight = Except.error e →
      NewDeploymentData env file flags depAddr = Except.error e) := by
  refine ⟨?_, ?_, ?_, ?_, ?_⟩
  · intro f s g m v id0 hf hs hg hm hv hid hnz
    have hres : NewDeploymentData env file flags depAddr = Except.ok
        { SDLFile := f, sdl := s, manifest := m, groupStore := env.groupStore,
          Groups := g, DeploymentID := id0, heapO := GoHeap.empty OrderID,
          OrderID := ⟨0, 0, 0⟩, heapL := GoHeap.empty LeaseID, LeaseID := ⟨0, 0, 0⟩,
          Version := v } := by
      simp [NewDeploymentData, hf, hs, hg, hm, hv, hid, hnz]
    exact ⟨_, hres, rfl⟩
  · intro f s g m v id0 ht hf hs hg hm hv hid hz hbh
    have hres : NewDeploymentData env file flags depAddr = Except.ok
        { SDLFile := f, sdl := s, manifest := m, groupStore := env.groupStore,
          Groups := g, DeploymentID := ⟨id0.owner, ht⟩, heapO := GoHeap.empty OrderID,
          OrderID := ⟨0, 0, 0⟩, heapL := GoHeap.empty LeaseID, LeaseID := ⟨0, 0, 0⟩,
          Version := v } := by
      simp [NewDeploymentData, hf, hs, hg, hm, hv, hid, hz, hbh]
    exact ⟨_, hres, rfl, rfl⟩
  · intro e he
    simp [NewDeploymentData, he]
  · intro f e hf he
    simp [NewDeploymentData, hf, he]
  · intro f s g m v id0 e hf hs hg hm hv hid hz hbh
    simp [NewDeploymentData, hf, hs, hg, hm, hv, hid, hz, hbh]

/-- C9 witness: under `exEnv` the flag sequence 5 is kept. -/
theorem C9_sequence_selection_witness :
    ∃ dd, NewDeploymentData exEnv "deploy.yaml" exFlags "akash1deployer" =
      Except.ok dd ∧ dd.DeploymentID = ⟨"akash1deployer", 5⟩ :=
  (C9_sequence_selection exEnv "deploy.yaml" exFlags "akash1deployer").1
    [10] ⟨1⟩ [0, 1] ⟨2⟩ [9] ⟨"akash1deployer", 5⟩ rfl rfl rfl rfl rfl rfl (by decide)

/-- C10 counterexample: the sequence add, add (same lease), remove —
executed sequentially, hence a legal behaviour under the lock — ends with
an empty collection although adds minus removes is one: `RemoveLease`
deletes every copy of the id, so cardinality does not track net adds. -/
theorem C10_counterexample :
    (applyLeaseOps exDD exC10ops).leaseView.length = 0 ∧
    numLeaseAdds exC10ops = 2 ∧ numLeaseRemoves exC10ops = 1 ∧
    ¬(((applyLeaseOps exDD exC10ops).leaseView.length : ℤ) =
      (exDD.leaseView.length : ℤ) + numLeaseAdds exC10ops - numLeaseRemoves exC10ops) := by
  decide

/-- C10 amended: for any serialisation of the calls (each call is atomic
under the exclusive lock) in which every `RemoveLease` targets an id held
exactly once at removal time, the final cardinality is the initial one
plus adds minus removes. -/
theorem C10_lease_cardinality (dd : DeploymentData) (hwf : DDWF dd)
    (ops : List LeaseOp) (hv : validRemoveSeq dd.leaseView ops = true) :
    ((applyLeaseOps dd ops).leaseView.length : ℤ) =
      (dd.leaseView.length : ℤ) + numLeaseAdds ops - numLeaseRemoves ops := by
  obtain ⟨_, hview⟩ := applyLeaseOps_view ops dd hwf
  rw [hview]
  exact runLeaseOps_length ops dd.leaseView hv

/-- C10 witness: one add and one remove of a single lease. -/
theorem C10_lease_cardinality_witness :
    ((applyLeaseOps exDD exC3ops).leaseView.length : ℤ) =
      (exDD.leaseView.length : ℤ) + numLeaseAdds exC3ops - numLeaseRemoves exC3ops :=
  C10_lease_cardinality exDD (by decide) exC3ops (by decide)

end Deploy

